import Mathlib

/-!
Verification development for the flask-caching cache-key derivation and
invalidation protocol (file `src/flask_caching/__init__.py`, helpers in
`src/flask_caching/utils.py`).

The Python code is shallowly embedded: Python values that can appear as call
arguments are modelled by `PyVal`; a decorated callable's reflection data
(module, qualified name, bound `__self__`, declared positional-or-keyword
parameters with defaults, source text) is modelled by `PyFunc`; the storage
backend's version-token entries are a function `Store : String → Option String`;
random token generation is an explicit deterministic supply `TokenGen`.
External one-way hash functions, base64 encoding, `repr`-based identity and
`str`-serialization are abstract function parameters, since they live outside
this repository.
-/

namespace FlaskCaching

/-- Model of Python runtime values that occur as arguments / results in the
caching layer.  `gen` models a lazy one-shot sequence producer (a generator
object over its would-be elements) and `pylist` the corresponding eager list,
so that "drained" and "undrained" results are distinguishable. -/
inductive PyVal where
  | none
  | bool (b : Bool)
  | int (n : Int)
  | str (s : String)
  | classref (name : String)
  | gen (elems : List String)
  | pylist (elems : List String)
  deriving DecidableEq, Repr

/-- Python truthiness (`bool(v)`) for the modelled values. -/
def PyVal.truthy : PyVal → Bool
  | .none => false
  | .bool b => b
  | .int n => n != 0
  | .str s => s ≠ ""
  | .classref _ => true
  | .gen _ => true
  | .pylist l => l ≠ []

/-- Model of `inspect.isclass`. -/
def isclass : PyVal → Bool
  | .classref _ => true
  | _ => false

/-- One declared positional-or-keyword parameter: its name and its declared
default (`none` models `inspect.Parameter.empty`, i.e. no default). -/
structure PyParam where
  name : String
  default : Option PyVal
  deriving DecidableEq, Repr

/-- Reflection data of a wrapped callable.  We model Python-3 callables, whose
`__qualname__` is always present, and callables all of whose parameters are
positional-or-keyword (the scope of the argument-normalization algorithm), so
`inspect.signature` indices and `get_arg_names` indices coincide. -/
structure PyFunc where
  module : String
  qualname : String
  selfObj : Option PyVal
  params : List PyParam
  source : String
  deriving DecidableEq, Repr

/-- Model of `get_arg_names(f)`: the declared positional-or-keyword parameter names. -/
def PyFunc.argNames (f : PyFunc) : List String :=
  f.params.map PyParam.name

/-- Model of `get_arg_default(f, i)` collapsed to one parameter: the declared default,
or Python `None` when the default slot is `inspect.Parameter.empty`. -/
def argDefaultVal (p : PyParam) : PyVal :=
  p.default.getD PyVal.none

/-- Association-list lookup mirroring Python's `name in kwargs` /
`kwargs[name]` on a dict rendered as a key-value list. -/
def lookupKV (k : String) : List (String × PyVal) → Option PyVal
  | [] => Option.none
  | (k0, v) :: rest => if k = k0 then some v else lookupKV k rest

/-- Model of `kw_keys_remaining.pop(kw_keys_remaining.index(name))`: remove the first
occurrence of a key. -/
def eraseFirst (k : String) : List String → List String
  | [] => []
  | x :: xs => if x = k then xs else x :: eraseFirst k xs

/-- Key order used when sorting the leftover keyword arguments.  Python sorts
the `(key, value)` tuples; since the keys of a kwargs dict are distinct, that
tuple order never consults the values, so sorting by key is exact. -/
def kvKeyLe (a b : String × PyVal) : Prop :=
  a.1 ≤ b.1

instance : DecidableRel kvKeyLe := fun a b => by
  unfold kvKeyLe; infer_instance

/-- Model of `OrderedDict(sorted(...))` over the unconsumed keyword arguments. -/
def sortKV (l : List (String × PyVal)) : List (String × PyVal) :=
  List.insertionSort kvKeyLe l

/-- The per-parameter loop body of `Cache._memoize_kwargs_to_args`
(`__init__.py` lines 771-815), recursing over the declared parameter list.
State: `isFirst` tracks `i == 0`, `argNum` is `arg_num`, `kwRem` is
`kw_keys_remaining`.  The branch order is exactly the source's:
ignore-list, then `self`/`cls` at position 0, then keyword consumption,
then positional consumption, then the (truthiness-tested) default, then the
`None` placeholder.  `args.headD` stands for the source's `args[0]`, which is
only reachable with a nonempty `args` for a legally bound call. -/
def kwargsToArgsAux (getId : PyVal → String) (isFirst : Bool)
    (ps : List PyParam) (args : List PyVal) (kwargs : List (String × PyVal))
    (ignore : List String) (argNum : Nat) (kwRem : List String) :
    List PyVal × List String :=
  match ps with
  | [] => ([], kwRem)
  | p :: rest =>
    if p.name ∈ ignore then
      let r := kwargsToArgsAux getId false rest args kwargs ignore (argNum + 1) kwRem
      (PyVal.none :: r.1, r.2)
    else if isFirst && (p.name == "self" || p.name == "cls") then
      let r := kwargsToArgsAux getId false rest args kwargs ignore (argNum + 1) kwRem
      (PyVal.str (getId (args.headD PyVal.none)) :: r.1, r.2)
    else
      match lookupKV p.name kwargs with
      | some v =>
        let r := kwargsToArgsAux getId false rest args kwargs ignore argNum
          (eraseFirst p.name kwRem)
        (v :: r.1, r.2)
      | Option.none =>
        if h : argNum < args.length then
          let r := kwargsToArgsAux getId false rest args kwargs ignore (argNum + 1) kwRem
          (args.get ⟨argNum, h⟩ :: r.1, r.2)
        else if (argDefaultVal p).truthy then
          let r := kwargsToArgsAux getId false rest args kwargs ignore (argNum + 1) kwRem
          (argDefaultVal p :: r.1, r.2)
        else
          let r := kwargsToArgsAux getId false rest args kwargs ignore (argNum + 1) kwRem
          (PyVal.none :: r.1, r.2)

/-- Embedding of `Cache._memoize_kwargs_to_args` (`__init__.py` lines 756-823): normalize a
call's positional and keyword arguments against the declared parameters into
the canonical `(new_args ++ positional overflow, sorted leftover kwargs)`
pair.  `args_to_ignore` is the list popped from the incoming kwargs. -/
def memoizeKwargsToArgs (getId : PyVal → String) (f : PyFunc)
    (args : List PyVal) (kwargs : List (String × PyVal))
    (argsToIgnore : List String) :
    List PyVal × List (String × PyVal) :=
  let r := kwargsToArgsAux getId true f.params args kwargs argsToIgnore 0
    (kwargs.map Prod.fst)
  (r.1 ++ args.drop f.params.length,
   sortKV (kwargs.filter (fun kv => decide (kv.1 ∈ r.2))))

/-- Errors the namespace derivation can raise: `ValueError` is the descriptive
classmethod error raised by the source itself; `TypeError` models Python's
`None[0]` failure and `IndexError` models `()[0]`. -/
inductive PyErr where
  | typeError
  | indexError
  | valueError
  deriving DecidableEq, Repr

/-- A character kept by the `null_control` translation table: ASCII letters,
digits, `_` and `.` (codepoints ≥ 256 are not in the table and pass through). -/
def keepChar (c : Char) : Bool :=
  256 ≤ c.toNat ||
    (('a' ≤ c && c ≤ 'z') || ('A' ≤ c && c ≤ 'Z') ||
     ('0' ≤ c && c ≤ '9') || c = '_' || c = '.')

/-- Model of `s.translate(*null_control)`: drop every control / non-identifier
character below codepoint 256. -/
def translateNull (s : String) : String :=
  ⟨s.toList.filter keepChar⟩

/-- Python truthiness of the `args` tuple-or-None in `function_namespace`. -/
def argsTruthy : Option (List PyVal) → Bool
  | some (_ :: _) => true
  | _ => false

/-- The `ns`/`ins` assembly at the tail of `function_namespace`: join module
and qualified name (and, when a truthy instance token exists, the token),
then strip control characters. -/
def mkNamespacePair (f : PyFunc) (instanceToken : Option String) :
    String × Option String :=
  let ns := translateNull (f.module ++ "." ++ f.qualname)
  let ins :=
    match instanceToken with
    | some tok =>
      if tok ≠ "" then
        some (translateNull (f.module ++ "." ++ f.qualname ++ "." ++ tok))
      else Option.none
    | Option.none => Option.none
  (ns, ins)

/-- Embedding of `function_namespace(f, args)` (`utils.py` lines 50-103, identical logic at
`__init__.py` lines 89-143): derive the `(namespace, instance namespace)` pair,
raising when a first parameter `cls` is paired with a missing or non-class
first argument.  `getId` models `get_id` (the `repr`/`__caching_id__` hook). -/
def functionNamespace (getId : PyVal → String) (f : PyFunc)
    (args : Option (List PyVal)) : Except PyErr (String × Option String) :=
  let mArgs := f.argNames
  let instanceToken : Option String :=
    match f.selfObj with
    | some s =>
      if s.truthy && !isclass s then some (getId s)
      else if mArgs.head? = some "self" then
        match args with
        | some (a :: _) => some (getId a)
        | _ => Option.none
      else Option.none
    | Option.none =>
      if mArgs.head? = some "self" then
        match args with
        | some (a :: _) => some (getId a)
        | _ => Option.none
      else Option.none
  if mArgs.head? = some "cls" then
    match args with
    | Option.none => .error PyErr.typeError
    | some [] => .error PyErr.indexError
    | some (a :: _) =>
      if !isclass a then .error PyErr.valueError
      else
        .ok (mkNamespacePair f instanceToken)
  else
    .ok (mkNamespacePair f instanceToken)

/-- The slice of the storage backend holding version-token entries. -/
def Store : Type := String → Option String

/-- Model of a one-key `cache.set_many` write, restricted to one key. -/
def setStore (k v : String) (s : Store) : Store :=
  fun q => if q = k then some v else s q

/-- Model of `cache.delete_many(k)`. -/
def delStore (k : String) (s : Store) : Store :=
  fun q => if q = k then Option.none else s q

/-- Deterministic supply standing in for
`base64.b64encode(uuid.uuid4().bytes)[:6]`: `gen ctr` is the next fresh
random token and `next` advances the supply. -/
structure TokenGen where
  gen : Nat → String
  ctr : Nat

/-- Advance the token supply past one generated token. -/
def TokenGen.next (tg : TokenGen) : TokenGen :=
  ⟨tg.gen, tg.ctr + 1⟩

/-- Embedding of `Cache._memvname`. -/
def memvname (funcname : String) : String :=
  funcname ++ "_memver"

/-- Embedding of `Cache._memoize_version` (`__init__.py` lines 635-702).  The source works
with `fetch_keys = [function key] (+ [instance key])` and a parallel
`version_data_list`; here the one- and two-entry cases are written out as the
two branches of the `instanceFname` match.  `forcedDirty` is the boolean
outcome of the `forced_update(...) is True` test.  TTLs are not modelled
(time is out of scope); the returned `Option String` is `none` exactly for
the `delete` early return, which the source writes as `return fname, None`. -/
def memoizeVersion (cache : Store) (tg : TokenGen) (getId : PyVal → String)
    (f : PyFunc) (args : Option (List PyVal)) (reset delete : Bool)
    (forcedDirty : Bool) (argsToIgnore : List String) :
    Except PyErr ((String × Option String) × Store × TokenGen) :=
  match functionNamespace getId f args with
  | .error e => .error e
  | .ok (fname, insOpt) =>
    let versionKey := memvname fname
    let instanceFname := if "self" ∈ argsToIgnore then Option.none else insOpt
    match instanceFname with
    | Option.none =>
      -- fetch_keys = [version_key]
      if delete then
        .ok ((fname, Option.none), delStore versionKey cache, tg)
      else
        let v0 := cache versionKey
        let s0 : String × TokenGen × Bool :=
          match v0 with
          | some t => (t, tg, forcedDirty)
          | Option.none => (tg.gen tg.ctr, tg.next, true)
        if reset then
          -- fetch_keys[-1:] = [version_key], version_data_list = [fresh]
          let tokR := s0.2.1.gen s0.2.1.ctr
          .ok ((fname, some tokR), setStore versionKey tokR cache, s0.2.1.next)
        else if s0.2.2 then
          .ok ((fname, some s0.1), setStore versionKey s0.1 cache, s0.2.1)
        else
          .ok ((fname, some s0.1), cache, s0.2.1)
    | some ifn =>
      -- fetch_keys = [version_key, instance_version_key]
      let instanceKey := memvname ifn
      if delete then
        -- delete only fetch_keys[-1], the instance-level entry
        .ok ((fname, Option.none), delStore instanceKey cache, tg)
      else
        let v0 := cache versionKey
        let v1 := cache instanceKey
        let s0 : String × TokenGen × Bool :=
          match v0 with
          | some t => (t, tg, forcedDirty)
          | Option.none => (tg.gen tg.ctr, tg.next, true)
        let s1 : String × TokenGen × Bool :=
          match v1 with
          | some t => (t, s0.2.1, s0.2.2)
          | Option.none => (s0.2.1.gen s0.2.1.ctr, s0.2.1.next, true)
        if reset then
          -- fetch_keys[-1:] = [instance_version_key], one fresh token
          let tokR := s1.2.1.gen s1.2.1.ctr
          .ok ((fname, some tokR), setStore instanceKey tokR cache, s1.2.1.next)
        else if s1.2.2 then
          .ok ((fname, some (s0.1 ++ s1.1)),
            setStore instanceKey s1.1 (setStore versionKey s0.1 cache), s1.2.1)
        else
          .ok ((fname, some (s0.1 ++ s1.1)), cache, s1.2.1)

/-- The key builder returned by `Cache._memoize_make_cache_key`
(`__init__.py` lines 704-754).  `hashDigest` models the configured hash's
digest over all bytes fed by `update` (successive updates concatenate),
`b64` models `base64.b64encode`, and `serArgs` / `serKw` model the
f-string's `str()` rendering of the normalized tuple and OrderedDict.
The modelled `f` is always callable, so the `callable(f)` tests pass. -/
def memoizeMakeCacheKey (hashDigest : String → String) (b64 : String → String)
    (serArgs : List PyVal → String) (serKw : List (String × PyVal) → String)
    (getId : PyVal → String) (makeName : Option (String → String))
    (sourceCheck : Bool) (cache : Store) (tg : TokenGen) (f : PyFunc)
    (args : List PyVal) (kwargs : List (String × PyVal))
    (forcedDirty : Bool) (argsToIgnore : List String) :
    Except PyErr (String × Store × TokenGen) :=
  match memoizeVersion cache tg getId f (some args) false false forcedDirty
      argsToIgnore with
  | .error e => .error e
  | .ok ((fname, versionData), cache', tg') =>
    let altfname :=
      match makeName with
      | some g => g fname
      | Option.none => fname
    let normalized := memoizeKwargsToArgs getId f args kwargs argsToIgnore
    let updated := altfname ++ serArgs normalized.1 ++ serKw normalized.2
    let hashed :=
      if sourceCheck then hashDigest (updated ++ f.source)
      else hashDigest updated
    let key16 := (b64 hashed).take 16
    .ok (key16 ++ versionData.getD "", cache', tg')

/-- Lexicographic order on `(key, value)` query-string pairs: Python's tuple
comparison used by `sorted(pair for pair in request.args.items(multi=True))`. -/
def qsPairLe (a b : String × String) : Prop :=
  a.1 < b.1 ∨ (a.1 = b.1 ∧ a.2 ≤ b.2)

instance : DecidableRel qsPairLe := fun a b => by
  unfold qsPairLe; infer_instance

instance : IsTotal (String × String) qsPairLe := by
  constructor
  intro a b
  rcases lt_trichotomy a.1 b.1 with h | h | h
  · exact Or.inl (Or.inl h)
  · rcases le_total a.2 b.2 with h2 | h2
    · exact Or.inl (Or.inr ⟨h, h2⟩)
    · exact Or.inr (Or.inr ⟨h.symm, h2⟩)
  · exact Or.inr (Or.inl h)

instance : IsTrans (String × String) qsPairLe := by
  constructor
  intro a b c hab hbc
  rcases hab with h1 | ⟨h1, h1v⟩
  · rcases hbc with h2 | ⟨h2, _⟩
    · exact Or.inl (lt_trans h1 h2)
    · exact Or.inl (h2 ▸ h1)
  · rcases hbc with h2 | ⟨h2, h2v⟩
    · exact Or.inl (h1 ▸ h2)
    · exact Or.inr ⟨h1.trans h2, le_trans h1v h2v⟩

instance : IsAntisymm (String × String) qsPairLe := by
  constructor
  intro a b hab hba
  rcases hab with h1 | ⟨h1, h1v⟩
  · rcases hba with h2 | ⟨h2, _⟩
    · exact absurd (lt_trans h1 h2) (lt_irrefl a.1)
    · exact absurd h1 (h2 ▸ lt_irrefl b.1)
  · rcases hba with h2 | ⟨h2, h2v⟩
    · exact absurd h2 (h1 ▸ lt_irrefl a.1)
    · exact Prod.ext h1 (le_antisymm h1v h2v)

/-- Model of `sorted(pair for pair in request.args.items(multi=True))`: the full
pair list — duplicates included — sorted lexicographically. -/
def sortQueryPairs (l : List (String × String)) : List (String × String) :=
  List.insertionSort qsPairLe l

/-- Embedding of `_make_cache_key_query_string` (`__init__.py` lines 557-596): sort the
multi-valued query pairs, serialize (`str(tuple).encode()`, modelled by the
abstract `ser`), hash (optionally feeding the view's source text into the
hash first), and append the hex digest to the request path. -/
def qsHashedPart (hashHex : String → String)
    (ser : List (String × String) → String) (sourceCheck : Bool)
    (src : String) (pairs : List (String × String)) : String :=
  if sourceCheck then hashHex (ser (sortQueryPairs pairs) ++ src)
  else hashHex (ser (sortQueryPairs pairs))

/-- The full query-string cache key: `request.path + cache_hash`. -/
def makeCacheKeyQueryString (hashHex : String → String)
    (ser : List (String × String) → String) (sourceCheck : Bool)
    (src : String) (path : String) (pairs : List (String × String)) : String :=
  path ++ qsHashedPart hashHex ser sourceCheck src pairs

/-- Embedding of `Cache._bypass_cache` (`__init__.py` lines 825-845): `unlessRes` is
`none` when `unless` is not callable, and `some r` when calling it (with or
without the original arguments — both shapes feed the same `is True` test)
returned `r`.  Only the exact boolean `True` triggers the bypass. -/
def bypassCache (unlessRes : Option PyVal) : Bool :=
  match unlessRes with
  | some r => r == PyVal.bool true
  | Option.none => false

/-- The `forced_update` test at `__init__.py` lines 962-970: callable and
returning exactly `True`. -/
def forcedMiss (forcedRes : Option PyVal) : Bool :=
  match forcedRes with
  | some r => r == PyVal.bool true
  | Option.none => false

/-- The phase (in the spec's state-machine vocabulary) in which a caught
exception arose inside the memoize `decorated_function`. -/
inductive Phase where
  | keyBuild
  | lookup
  | store
  deriving DecidableEq, Repr

/-- Inputs of one call to the memoize `decorated_function`: predicate
outcomes, the key build outcome, backend behavior (`Except.error ()` models a
raised exception; `cache.get` returning `PyVal.none` is the absent sentinel),
the wrapped function's return value and the response filter. -/
structure CallEnv where
  debug : Bool
  unlessRes : Option PyVal
  forcedRes : Option PyVal
  keyBuild : Except Unit String
  getRes : String → Except Unit PyVal
  hasRes : String → Except Unit Bool
  setRes : String → PyVal → Except Unit Bool
  fResult : PyVal
  respFilter : Option (PyVal → Bool)
  cacheNone : Bool

/-- Observable outcome of one decorated call: the value returned to the
caller (`Except.error ()` = exception propagated), whether the wrapped
function was invoked, what was written to the backend, and — as bookkeeping —
the phase of a caught backend/key exception, if any. -/
structure CallResult where
  result : Except Unit PyVal
  fCalled : Bool
  stored : Option (String × PyVal)
  caught : Option Phase

/-- The `response_filter is None or response_filter(rv)` test guarding the
store (`__init__.py` line 1000). -/
def respPass (env : CallEnv) : Bool :=
  match env.respFilter with
  | some flt => flt env.fResult
  | Option.none => true

/-- The memoize `decorated_function` (`__init__.py` lines 950-1011):
bypass check, key build + forced-update + lookup inside one `try` (debug
re-raises, otherwise the call degrades to a direct invocation), then on a
miss compute, filter, and store (store errors again re-raised only in
debug). -/
def memoizeCall (env : CallEnv) : CallResult :=
  if bypassCache env.unlessRes then
    { result := .ok env.fResult, fCalled := true, stored := Option.none,
      caught := Option.none }
  else
    match env.keyBuild with
    | .error _ =>
      if env.debug then
        { result := .error (), fCalled := false, stored := Option.none,
          caught := some Phase.keyBuild }
      else
        { result := .ok env.fResult, fCalled := true, stored := Option.none,
          caught := some Phase.keyBuild }
    | .ok key =>
      let lookup : Except Unit (Option PyVal × Bool) :=
        if forcedMiss env.forcedRes then .ok (Option.none, false)
        else
          match env.getRes key with
          | .error e => .error e
          | .ok rv =>
            if rv = PyVal.none then
              if !env.cacheNone then .ok (some rv, false)
              else
                match env.hasRes key with
                | .error e => .error e
                | .ok ex => .ok (some rv, ex)
            else .ok (some rv, true)
      match lookup with
      | .error _ =>
        if env.debug then
          { result := .error (), fCalled := false, stored := Option.none,
            caught := some Phase.lookup }
        else
          { result := .ok env.fResult, fCalled := true, stored := Option.none,
            caught := some Phase.lookup }
      | .ok (rvOpt, found) =>
        if found then
          { result := .ok (rvOpt.getD PyVal.none), fCalled := false,
            stored := Option.none, caught := Option.none }
        else
          let rv := env.fResult
          if respPass env then
            match env.setRes key rv with
            | .ok _ =>
              { result := .ok rv, fCalled := true, stored := some (key, rv),
                caught := Option.none }
            | .error _ =>
              if env.debug then
                { result := .error (), fCalled := true, stored := Option.none,
                  caught := some Phase.store }
              else
                { result := .ok rv, fCalled := true, stored := Option.none,
                  caught := some Phase.store }
          else
            { result := .ok rv, fCalled := true, stored := Option.none,
              caught := Option.none }

/-- A lazy one-shot sequence value (a generator object). -/
def isLazySeq : PyVal → Bool
  | .gen _ => true
  | _ => false

/-- Draining a lazy sequence into its eager counterpart — the transformation
the spec prescribes before storing. -/
def drainLazy : PyVal → PyVal
  | .gen l => .pylist l
  | v => v

/-!  ## Theorems about the decorated-call state machine  -/

/-- C10: with an `unless` (or `forced_update`) predicate supplied, caching is
bypassed (respectively, the lookup is skipped as a forced miss) only when the
predicate returns the exact boolean `True`; any other return value — truthy
ones such as `1` or a nonempty string included — leaves the call observably
identical to a call with no predicate at all, while an exact `True` bypasses
the cache (result returned fresh, nothing stored) or skips the lookup
entirely (the backend `get` is never consulted). -/
theorem c10_exact_true_predicates (env : CallEnv) (r1 r2 : PyVal) :
    (r1 ≠ PyVal.bool true →
      memoizeCall { env with unlessRes := some r1 } =
        memoizeCall { env with unlessRes := Option.none }) ∧
    (r2 ≠ PyVal.bool true →
      memoizeCall { env with forcedRes := some r2 } =
        memoizeCall { env with forcedRes := Option.none }) ∧
    ((memoizeCall { env with unlessRes := some (PyVal.bool true) }).result
        = .ok env.fResult ∧
      (memoizeCall { env with unlessRes := some (PyVal.bool true) }).stored
        = Option.none) ∧
    (∀ g, memoizeCall { env with forcedRes := some (PyVal.bool true) } =
      memoizeCall { env with forcedRes := some (PyVal.bool true), getRes := g }) := by
  refine ⟨fun h1 => ?_, fun h2 => ?_, ⟨?_, ?_⟩, fun g => ?_⟩
  · simp [memoizeCall, bypassCache, respPass, h1]
  · simp [memoizeCall, bypassCache, forcedMiss, respPass, h2]
  · simp [memoizeCall, bypassCache]
  · simp [memoizeCall, bypassCache]
  · simp [memoizeCall, forcedMiss, respPass]

/-- A plain environment used to witness the predicate claim: a successful
key build, an absent key, a working backend. -/
def envPlain : CallEnv :=
  { debug := false, unlessRes := Option.none, forcedRes := Option.none,
    keyBuild := .ok "k", getRes := fun _ => .ok PyVal.none,
    hasRes := fun _ => .ok false, setRes := fun _ _ => .ok true,
    fResult := PyVal.int 42, respFilter := Option.none, cacheNone := false }

/-- Witness for C10 at a truthy non-`True` predicate value (`1`) and at a
nonempty string. -/
theorem c10_witness :
    memoizeCall { envPlain with unlessRes := some (PyVal.int 1) } =
      memoizeCall { envPlain with unlessRes := Option.none } ∧
    memoizeCall { envPlain with forcedRes := some (PyVal.str "yes") } =
      memoizeCall { envPlain with forcedRes := Option.none } :=
  ⟨(c10_exact_true_predicates envPlain (PyVal.int 1) (PyVal.str "yes")).1
      (by decide),
   (c10_exact_true_predicates envPlain (PyVal.int 1) (PyVal.str "yes")).2.1
      (by decide)⟩

/-- A missing-key environment whose wrapped function yields a lazy one-shot
sequence producer. -/
def envGen : CallEnv :=
  { debug := false, unlessRes := Option.none, forcedRes := Option.none,
    keyBuild := .ok "k", getRes := fun _ => .ok PyVal.none,
    hasRes := fun _ => .ok false, setRes := fun _ _ => .ok true,
    fResult := PyVal.gen ["x"], respFilter := Option.none, cacheNone := false }

/-- C9 counterexample: on a miss where the wrapped function returns a lazy
one-shot sequence producer, the decorated call stores the lazy producer
itself — not its eager drained form — so the cache does store an unconsumed
lazy sequence, contradicting the claim. -/
theorem c9_counterexample :
    (memoizeCall envGen).stored = some ("k", PyVal.gen ["x"]) ∧
    isLazySeq (PyVal.gen ["x"]) = true ∧
    PyVal.gen ["x"] ≠ drainLazy (PyVal.gen ["x"]) :=
  ⟨rfl, rfl, by decide⟩

/-- C9 (amended): on a cache miss whose result passes the response filter and
whose backend write succeeds, the value stored is exactly the wrapped
function's return value — no draining of lazy sequences (or any other
transformation) is applied before storage. -/
theorem c9_stored_as_returned (env : CallEnv) (key : String) (b : Bool)
    (hb : bypassCache env.unlessRes = false)
    (hk : env.keyBuild = .ok key)
    (hf : forcedMiss env.forcedRes = false)
    (hg : env.getRes key = .ok PyVal.none)
    (hcn : env.cacheNone = false)
    (hfl : ∀ flt ∈ env.respFilter, flt env.fResult = true)
    (hset : env.setRes key env.fResult = .ok b) :
    (memoizeCall env).stored = some (key, env.fResult) := by
  have hdo : respPass env = true := by
    unfold respPass
    cases hfo : env.respFilter with
    | none => rfl
    | some flt => exact hfl flt (by simp [hfo])
  simp [memoizeCall, hb, hk, hf, hg, hcn, hdo, hset]

/-- Witness for the amended C9 at the concrete lazy-producer environment. -/
theorem c9_witness : (memoizeCall envGen).stored = some ("k", envGen.fResult) :=
  c9_stored_as_returned envGen "k" true rfl rfl rfl rfl rfl
    (by intro flt h; simp [envGen] at h) rfl

/-- C7: when the backend `get` returns the absent sentinel (`None`), the
default `cache_none=False` treats the call as a miss and invokes the wrapped
function; with `cache_none=True` a secondary `cache.has` existence check on
the same key decides: the call is a hit returning the cached `None` without
invoking the wrapped function exactly when the key exists. -/
theorem c7_cache_none_lookup (env : CallEnv) (key : String)
    (hb : bypassCache env.unlessRes = false)
    (hk : env.keyBuild = .ok key)
    (hf : forcedMiss env.forcedRes = false)
    (hg : env.getRes key = .ok PyVal.none) :
    (env.cacheNone = false → (memoizeCall env).fCalled = true) ∧
    (env.cacheNone = true → env.hasRes key = .ok true →
      (memoizeCall env).result = .ok PyVal.none ∧
      (memoizeCall env).fCalled = false) ∧
    (env.cacheNone = true → env.hasRes key = .ok false →
      (memoizeCall env).fCalled = true) := by
  refine ⟨fun hcn => ?_, fun hcn hh => ?_, fun hcn hh => ?_⟩
  · simp only [memoizeCall, hb, hk, hf, hg, hcn]
    simp
    split
    · split
      · rfl
      · split <;> rfl
    · rfl
  · constructor <;> simp [memoizeCall, hb, hk, hf, hg, hcn, hh]
  · simp only [memoizeCall, hb, hk, hf, hg, hcn, hh]
    simp
    split
    · split
      · rfl
      · split <;> rfl
    · rfl

/-- Environment with a cached `None` value and an existing key, for the C7
witness. -/
def envNoneHit : CallEnv :=
  { debug := false, unlessRes := Option.none, forcedRes := Option.none,
    keyBuild := .ok "k", getRes := fun _ => .ok PyVal.none,
    hasRes := fun _ => .ok true, setRes := fun _ _ => .ok true,
    fResult := PyVal.int 7, respFilter := Option.none, cacheNone := true }

/-- Witness for C7: with `cache_none=True` and an existing key holding `None`,
the call hits and the wrapped function is not invoked. -/
theorem c7_witness :
    (memoizeCall envNoneHit).result = .ok PyVal.none ∧
    (memoizeCall envNoneHit).fCalled = false :=
  (c7_cache_none_lookup envNoneHit "k" rfl rfl rfl rfl).2.1 rfl rfl

/-- C6: whenever an exception is caught while building the cache key or
talking to the backend (`get`/`has` during lookup, `set` during store), the
decorated call re-raises it in debug mode; otherwise it degrades to invoking
the wrapped function directly, returning its result uncached (nothing is
written to the backend). -/
theorem c6_backend_error_handling (env : CallEnv)
    (h : (memoizeCall env).caught.isSome = true) :
    (env.debug = true → (memoizeCall env).result = .error ()) ∧
    (env.debug = false →
      (memoizeCall env).result = .ok env.fResult ∧
      (memoizeCall env).fCalled = true ∧
      (memoizeCall env).stored = Option.none) := by
  by_cases hb : bypassCache env.unlessRes
  · exfalso
    simp [memoizeCall, hb] at h
  · simp only [Bool.not_eq_true] at hb
    cases hk : env.keyBuild with
    | error e =>
      refine ⟨fun hd => ?_, fun hd => ?_⟩ <;> simp [memoizeCall, hb, hk, hd]
    | ok key =>
      by_cases hf : forcedMiss env.forcedRes
      · cases hdo : respPass env with
        | false =>
          exfalso
          simp [memoizeCall, hb, hk, hf, hdo] at h
        | true =>
          cases hs : env.setRes key env.fResult with
          | ok b =>
            exfalso
            simp [memoizeCall, hb, hk, hf, hdo, hs] at h
          | error u =>
            refine ⟨fun hd => ?_, fun hd => ?_⟩ <;>
              simp [memoizeCall, hb, hk, hf, hdo, hs, hd]
      · simp only [Bool.not_eq_true] at hf
        cases hg : env.getRes key with
        | error u =>
          refine ⟨fun hd => ?_, fun hd => ?_⟩ <;>
            simp [memoizeCall, hb, hk, hf, hg, hd]
        | ok rv =>
          by_cases hrv : rv = PyVal.none
          · subst hrv
            cases hcn : env.cacheNone with
            | false =>
              cases hdo : respPass env with
              | false =>
                exfalso
                simp [memoizeCall, hb, hk, hf, hg, hcn, hdo] at h
              | true =>
                cases hs : env.setRes key env.fResult with
                | ok b =>
                  exfalso
                  simp [memoizeCall, hb, hk, hf, hg, hcn, hdo, hs] at h
                | error u =>
                  refine ⟨fun hd => ?_, fun hd => ?_⟩ <;>
                    simp [memoizeCall, hb, hk, hf, hg, hcn, hdo, hs, hd]
            | true =>
              cases hh : env.hasRes key with
              | error u =>
                refine ⟨fun hd => ?_, fun hd => ?_⟩ <;>
                  simp [memoizeCall, hb, hk, hf, hg, hcn, hh, hd]
              | ok ex =>
                cases ex with
                | true =>
                  exfalso
                  simp [memoizeCall, hb, hk, hf, hg, hcn, hh] at h
                | false =>
                  cases hdo : respPass env with
                  | false =>
                    exfalso
                    simp [memoizeCall, hb, hk, hf, hg, hcn, hh, hdo] at h
                  | true =>
                    cases hs : env.setRes key env.fResult with
                    | ok b =>
                      exfalso
                      simp [memoizeCall, hb, hk, hf, hg, hcn, hh, hdo, hs] at h
                    | error u =>
                      refine ⟨fun hd => ?_, fun hd => ?_⟩ <;>
                        simp [memoizeCall, hb, hk, hf, hg, hcn, hh, hdo, hs, hd]
          · exfalso
            simp [memoizeCall, hb, hk, hf, hg, hrv] at h

/-- Environment whose key build raises, in non-debug mode, for the C6
witness. -/
def envKeyErr : CallEnv :=
  { debug := false, unlessRes := Option.none, forcedRes := Option.none,
    keyBuild := .error (), getRes := fun _ => .ok PyVal.none,
    hasRes := fun _ => .ok false, setRes := fun _ _ => .ok true,
    fResult := PyVal.int 3, respFilter := Option.none, cacheNone := false }

/-- Witness for C6: a key-build failure outside debug mode degrades to a
direct uncached invocation. -/
theorem c6_witness :
    (memoizeCall envKeyErr).result = .ok envKeyErr.fResult ∧
    (memoizeCall envKeyErr).fCalled = true ∧
    (memoizeCall envKeyErr).stored = Option.none :=
  (c6_backend_error_handling envKeyErr rfl).2 rfl

/-!  ## Theorems about argument normalization defaults (C4)  -/

/-- A concrete `get_id` stand-in for closed counterexamples and witnesses. -/
def gidConst : PyVal → String := fun _ => "ID"

/-- Function `def g(a, b=0)`: second parameter carries the falsy declared default `0`. -/
def funcFalsyDefault : PyFunc :=
  { module := "m", qualname := "g", selfObj := Option.none,
    params := [{ name := "a", default := Option.none },
               { name := "b", default := some (PyVal.int 0) }],
    source := "src" }

/-- C4 counterexample: for `def g(a, b=0)` called as `g(1)`, parameter `b` is
declared with default `0`, is not ignored, is not in the kwargs, and has no
positional argument left — yet the canonical tuple is `(1, None)`, not the
`(1, 0)` the claim requires: the code's `elif arg_default:` tests the
default's truthiness, so a falsy declared default is replaced by the nil
placeholder. -/
theorem c4_counterexample :
    memoizeKwargsToArgs gidConst funcFalsyDefault [PyVal.int 1] [] []
      = ([PyVal.int 1, PyVal.none], []) ∧
    (memoizeKwargsToArgs gidConst funcFalsyDefault [PyVal.int 1] [] []).1
      ≠ [PyVal.int 1, PyVal.int 0] ∧
    (funcFalsyDefault.params.get ⟨1, by decide⟩).default = some (PyVal.int 0) :=
  ⟨rfl, by decide, rfl⟩

/-- Function `def h(b=7)`: a truthy declared default. -/
def funcTruthyDefault : PyFunc :=
  { module := "m", qualname := "h", selfObj := Option.none,
    params := [{ name := "b", default := some (PyVal.int 7) }],
    source := "src" }

/-!  ## Theorems about the classmethod namespace check (C8)  -/

/-- Function `def K.h(cls, a)` seen as the raw (unbound) function object: first
declared parameter is `cls`. -/
def funcClsFirst : PyFunc :=
  { module := "mo", qualname := "K.h", selfObj := Option.none,
    params := [{ name := "cls", default := Option.none },
               { name := "a", default := Option.none }],
    source := "s" }

/-- C8 counterexample: invoking the namespace derivation for a `cls`-first
callable with an empty argument tuple — `delete_memoized` called with only
keyword arguments does exactly this — fails with an `IndexError` from
`args[0]`, not with the descriptive `ValueError` the claim promises for
every call that omits the owning class (with `args=None`, from the
no-argument `delete_memoized` path, it is a `TypeError` instead). -/
theorem c8_counterexample :
    functionNamespace gidConst funcClsFirst (some []) = .error PyErr.indexError ∧
    functionNamespace gidConst funcClsFirst Option.none = .error PyErr.typeError ∧
    PyErr.indexError ≠ PyErr.valueError :=
  ⟨rfl, rfl, by decide⟩

/-- C8 (amended): for a callable whose first declared parameter is `cls`, the
namespace derivation always fails fast before any namespace (hence any cache
key) is produced when the owning class is not supplied: with a present but
non-class first argument it raises the descriptive `ValueError`; with no
argument tuple at all it raises a `TypeError` (from subscripting `None`), and
with an empty argument tuple an `IndexError` — nondescriptive errors, but
still failures prior to key construction. -/
theorem c8_cls_check (getId : PyVal → String) (f : PyFunc)
    (h : f.argNames.head? = some "cls") :
    functionNamespace getId f Option.none = .error PyErr.typeError ∧
    functionNamespace getId f (some []) = .error PyErr.indexError ∧
    ∀ a rest, isclass a = false →
      functionNamespace getId f (some (a :: rest)) = .error PyErr.valueError := by
  refine ⟨?_, ?_, fun a rest ha => ?_⟩
  · simp [functionNamespace, h]
  · simp [functionNamespace, h]
  · simp [functionNamespace, h, ha]

/-- Witness for the amended C8 at a non-class first argument. -/
theorem c8_witness :
    functionNamespace gidConst funcClsFirst (some [PyVal.int 5])
      = .error PyErr.valueError :=
  (c8_cls_check gidConst funcClsFirst rfl).2.2 (PyVal.int 5) [] rfl

/-!  ## Theorems about the query-string key (C3)  -/

/-- Two strings with a common prefix are equal iff their suffixes are. -/
lemma string_append_left_cancel {p a b : String} (h : p ++ a = p ++ b) :
    a = b := by
  have hd : (p ++ a).data = (p ++ b).data := congrArg String.data h
  rw [String.data_append, String.data_append] at hd
  have hc := List.append_cancel_left hd
  cases a
  cases b
  exact congrArg String.mk hc

/-- C3: the query-string cache key is invariant under every permutation of
the `(key, value)` pair multiset (duplicates each included individually);
and for two multisets that are not permutations of each other, the sorted
pair lists fed to the serializer/hash differ — so the keys differ except
for a collision of the serialize-and-hash pipeline, and whenever the hashed
parts differ the keys differ. -/
theorem c3_query_string_key (hashHex : String → String)
    (ser : List (String × String) → String) (sourceCheck : Bool)
    (src path : String) (l l' : List (String × String)) :
    (l.Perm l' →
      makeCacheKeyQueryString hashHex ser sourceCheck src path l =
        makeCacheKeyQueryString hashHex ser sourceCheck src path l') ∧
    (¬ l.Perm l' → sortQueryPairs l ≠ sortQueryPairs l') ∧
    (qsHashedPart hashHex ser sourceCheck src l ≠
        qsHashedPart hashHex ser sourceCheck src l' →
      makeCacheKeyQueryString hashHex ser sourceCheck src path l ≠
        makeCacheKeyQueryString hashHex ser sourceCheck src path l') := by
  refine ⟨fun hp => ?_, fun hnp => ?_, fun hh => ?_⟩
  · have hsort : sortQueryPairs l = sortQueryPairs l' := by
      apply List.eq_of_perm_of_sorted
        (r := qsPairLe)
        (((List.perm_insertionSort qsPairLe l).trans hp).trans
          (List.perm_insertionSort qsPairLe l').symm)
      · exact List.sorted_insertionSort qsPairLe l
      · exact List.sorted_insertionSort qsPairLe l'
    simp [makeCacheKeyQueryString, qsHashedPart, hsort]
  · intro hsort
    apply hnp
    have h1 : List.Perm l (sortQueryPairs l) :=
      (List.perm_insertionSort qsPairLe l).symm
    have h2 : List.Perm (sortQueryPairs l) l' := by
      rw [hsort]
      exact List.perm_insertionSort qsPairLe l'
    exact h1.trans h2
  · intro hkey
    exact hh (string_append_left_cancel hkey)

/-- Identity-shaped concrete hash and serializer for the C3 witness. -/
def hexId : String → String := fun s => s

/-- Concrete serializer for the C3 witness. -/
def serOfPairs : List (String × String) → String :=
  fun l => String.join (l.map (fun kv => kv.1 ++ "=" ++ kv.2 ++ ";"))

/-- Witness for C3: reordered pairs give the same key; a different multiset
(`a=1` vs `a=2`) gives different sorted pair lists. -/
theorem c3_witness :
    makeCacheKeyQueryString hexId serOfPairs false "" "/p"
        [("b", "2"), ("a", "1")] =
      makeCacheKeyQueryString hexId serOfPairs false "" "/p"
        [("a", "1"), ("b", "2")] ∧
    sortQueryPairs [("a", "1")] ≠ sortQueryPairs [("a", "2")] :=
  ⟨(c3_query_string_key hexId serOfPairs false "" "/p"
      [("b", "2"), ("a", "1")] [("a", "1"), ("b", "2")]).1 (by decide),
   (c3_query_string_key hexId serOfPairs false "" "/p"
      [("a", "1")] [("a", "2")]).2.1 (by decide)⟩

/-!  ## Theorems about the version registry (C5)  -/

/-- The narrower scope a reset targets: the instance-level namespace when one
applies, the function-level namespace otherwise. -/
def versionScope (fname : String) : Option String → String
  | some i => i
  | Option.none => fname

lemma translateNull_append (a b : String) :
    translateNull (a ++ b) = translateNull a ++ translateNull b := by
  show String.mk ((a ++ b).data.filter keepChar)
      = String.mk (a.data.filter keepChar) ++ String.mk (b.data.filter keepChar)
  show String.mk ((a ++ b).data.filter keepChar)
      = String.mk (a.data.filter keepChar ++ b.data.filter keepChar)
  rw [String.data_append, List.filter_append]

lemma string_append_right_cancel {a b s : String} (h : a ++ s = b ++ s) :
    a = b := by
  have hd := congrArg String.data h
  rw [String.data_append, String.data_append] at hd
  have hl : a.data.length = b.data.length := by
    have hlen := congrArg List.length hd
    rw [List.length_append, List.length_append] at hlen
    omega
  have hab := (List.append_inj hd hl).1
  cases a
  cases b
  exact congrArg String.mk hab

/-- Every successful namespace derivation returns the pair assembled by
`mkNamespacePair`. -/
lemma functionNamespace_shape (getId : PyVal → String) (f : PyFunc)
    (args : Option (List PyVal)) (fname : String) (insOpt : Option String)
    (h : functionNamespace getId f args = .ok (fname, insOpt)) :
    ∃ itok, mkNamespacePair f itok = (fname, insOpt) := by
  simp only [functionNamespace] at h
  split at h
  · split at h
    · cases h
    · cases h
    · split at h
      · cases h
      · exact ⟨_, Except.ok.inj h⟩
  · exact ⟨_, Except.ok.inj h⟩

/-- The instance-level namespace is strictly longer than the function-level
one (it has `"." ++ token` filtered onto the end), hence distinct from it. -/
lemma mkNamespacePair_snd_ne (f : PyFunc) (itok : Option String) (i : String)
    (h : (mkNamespacePair f itok).2 = some i) :
    i ≠ (mkNamespacePair f itok).1 := by
  unfold mkNamespacePair at h ⊢
  cases itok with
  | none => simp at h
  | some tok =>
    simp only at h
    split at h
    · have hi := Option.some.inj h
      have hexp : translateNull (f.module ++ "." ++ f.qualname ++ "." ++ tok)
          = translateNull (f.module ++ "." ++ f.qualname) ++ "."
            ++ translateNull tok := by
        rw [translateNull_append, translateNull_append]
        rfl
      intro hcontra
      have hlen := congrArg String.length hcontra
      rw [← hi, hexp] at hlen
      rw [String.length_append, String.length_append] at hlen
      have hdot : ("." : String).length = 1 := rfl
      simp only at hlen
      omega
    · cases h

lemma memvname_inj {a b : String} (h : memvname a = memvname b) : a = b :=
  string_append_right_cancel h

/-- C5: a `reset` call of the version registry rewrites exactly one version
entry: a fresh token is written under the narrower applicable scope — the
instance-level key when an instance namespace applies, else the
function-level key — and every other key of the store, in particular the
function-level entry whenever the instance-level one was rotated, is left
untouched. -/
theorem c5_reset_rotates_one_scope
    (cache : Store) (tg : TokenGen) (getId : PyVal → String) (f : PyFunc)
    (args : Option (List PyVal)) (fd : Bool) (ign : List String)
    (fname : String) (insOpt : Option String)
    (hns : functionNamespace getId f args = .ok (fname, insOpt)) :
    ∃ tok st' tg',
      memoizeVersion cache tg getId f args true false fd ign
        = .ok ((fname, some tok), st', tg') ∧
      st' = setStore
        (memvname (versionScope fname
          (if "self" ∈ ign then Option.none else insOpt))) tok cache ∧
      (∀ k,
        k ≠ memvname (versionScope fname
          (if "self" ∈ ign then Option.none else insOpt)) →
        st' k = cache k) ∧
      (∀ i, (if "self" ∈ ign then Option.none else insOpt) = some i →
        st' (memvname fname) = cache (memvname fname)) := by
  unfold memoizeVersion
  rw [hns]
  cases heff : (if "self" ∈ ign then Option.none else insOpt) with
  | none =>
    simp only [heff]
    refine ⟨_, _, _, rfl, rfl, fun k hk => ?_, fun i hi => ?_⟩
    · simp [versionScope] at hk
      simp [setStore, versionScope, hk]
    · cases hi
  | some ifn =>
    simp only [heff]
    have hifn : insOpt = some ifn := by
      by_cases hself : "self" ∈ ign
      · rw [if_pos hself] at heff
        cases heff
      · rw [if_neg hself] at heff
        exact heff
    have hne : ifn ≠ fname := by
      obtain ⟨itok, hpair⟩ := functionNamespace_shape getId f args fname insOpt hns
      have h2 : (mkNamespacePair f itok).2 = some ifn := by
        rw [hpair, hifn]
      have h1 : (mkNamespacePair f itok).1 = fname := by
        rw [hpair]
      rw [← h1]
      exact mkNamespacePair_snd_ne f itok ifn h2
    refine ⟨_, _, _, rfl, rfl, fun k hk => ?_, fun i hi => ?_⟩
    · simp [versionScope] at hk
      simp [setStore, versionScope, hk]
    · have : memvname fname ≠ memvname ifn := fun hmv =>
        hne (memvname_inj hmv).symm
      simp [setStore, versionScope, this]

/-- A bound-method callable (`__self__` a non-class object) for the C5
witness: `K.h` bound to an instance. -/
def funcBound : PyFunc :=
  { module := "mo", qualname := "K.h", selfObj := some (PyVal.str "obj"),
    params := [{ name := "self", default := Option.none },
               { name := "a", default := Option.none }],
    source := "s" }

/-- Witness for C5: resetting the bound method's version rotates only the
instance-level entry. -/
theorem c5_witness :
    ∃ tok st' tg',
      memoizeVersion (fun _ => Option.none) ⟨fun _ => "T", 0⟩ gidConst
          funcBound Option.none true false false []
        = .ok (("mo.K.h", some tok), st', tg') ∧
      st' = setStore (memvname (versionScope "mo.K.h" (some "mo.K.h.ID")))
        tok (fun _ => Option.none) ∧
      (∀ k, k ≠ memvname (versionScope "mo.K.h" (some "mo.K.h.ID")) →
        st' k = (fun _ => (Option.none : Option String)) k) ∧
      (∀ i, (some "mo.K.h.ID" : Option String) = some i →
        st' (memvname "mo.K.h")
          = (fun _ => (Option.none : Option String)) (memvname "mo.K.h")) :=
  c5_reset_rotates_one_scope (fun _ => Option.none) ⟨fun _ => "T", 0⟩
    gidConst funcBound Option.none false [] "mo.K.h" (some "mo.K.h.ID") rfl

/-!  ## Theorems about the memoized cache key (C2)  -/

/-- A non-reset, non-delete `_memoize_version` call succeeds and returns the
concatenation of the function-level token and (when an instance scope
applies) the instance-level token, each of which is exactly what the
post-call store holds under the corresponding `_memver` key. -/
lemma memoizeVersion_getOrCreate
    (cache : Store) (tg : TokenGen) (getId : PyVal → String) (f : PyFunc)
    (args : Option (List PyVal)) (fd : Bool) (ign : List String)
    (fname : String) (insOpt : Option String)
    (hns : functionNamespace getId f args = .ok (fname, insOpt)) :
    ∃ st' tg',
      memoizeVersion cache tg getId f args false false fd ign
        = .ok ((fname, some (
            (st' (memvname fname)).getD "" ++
            (match (if "self" ∈ ign then Option.none else insOpt) with
             | some i => (st' (memvname i)).getD ""
             | Option.none => ""))), st', tg') := by
  unfold memoizeVersion
  rw [hns]
  cases heff : (if "self" ∈ ign then Option.none else insOpt) with
  | none =>
    simp only [heff]
    cases hv0 : cache (memvname fname) with
    | some t =>
      cases fd with
      | false =>
        refine ⟨cache, tg, ?_⟩
        simp [hv0]
      | true =>
        refine ⟨setStore (memvname fname) t cache, tg, ?_⟩
        simp [hv0, setStore]
    | none =>
      refine ⟨setStore (memvname fname) (tg.gen tg.ctr) cache, tg.next, ?_⟩
      simp [hv0, setStore]
  | some ifn =>
    simp only [heff]
    have hifn : insOpt = some ifn := by
      by_cases hself : "self" ∈ ign
      · rw [if_pos hself] at heff
        cases heff
      · rw [if_neg hself] at heff
        exact heff
    have hne : memvname fname ≠ memvname ifn := by
      obtain ⟨itok, hpair⟩ := functionNamespace_shape getId f args fname insOpt hns
      have h2 : (mkNamespacePair f itok).2 = some ifn := by
        rw [hpair, hifn]
      have h1 : (mkNamespacePair f itok).1 = fname := by
        rw [hpair]
      intro hmv
      exact mkNamespacePair_snd_ne f itok ifn h2 (by rw [h1, memvname_inj hmv])
    cases hv0 : cache (memvname fname) with
    | some t0 =>
      cases hv1 : cache (memvname ifn) with
      | some t1 =>
        cases fd with
        | false =>
          refine ⟨cache, tg, ?_⟩
          simp [hv0, hv1]
        | true =>
          refine ⟨setStore (memvname ifn) t1
            (setStore (memvname fname) t0 cache), tg, ?_⟩
          simp [hv0, hv1, setStore, hne]
      | none =>
        refine ⟨setStore (memvname ifn) (tg.gen tg.ctr)
          (setStore (memvname fname) t0 cache), tg.next, ?_⟩
        simp [hv0, hv1, setStore, hne]
    | none =>
      cases hv1 : cache (memvname ifn) with
      | some t1 =>
        refine ⟨setStore (memvname ifn) t1
          (setStore (memvname fname) (tg.gen tg.ctr) cache), tg.next, ?_⟩
        simp [hv0, hv1, setStore, hne]
      | none =>
        refine ⟨setStore (memvname ifn) (tg.next.gen tg.next.ctr)
          (setStore (memvname fname) (tg.gen tg.ctr) cache), tg.next.next, ?_⟩
        simp [hv0, hv1, setStore, hne]

/-- C2: the memoized cache key is exactly the first 16 characters of the
base64 encoding of the hash digest of `namespace + serialized normalized
args + serialized normalized kwargs` — with the function's source text
additionally fed into the hash when source-fingerprinting is enabled —
followed by the function-level version token and then, when an instance
scope applies, the instance-level version token (function-level first),
each token being the entry the post-call store holds under its `_memver`
key. -/
theorem c2_memoized_key_composition
    (hashDigest b64 : String → String) (serArgs : List PyVal → String)
    (serKw : List (String × PyVal) → String) (getId : PyVal → String)
    (makeName : Option (String → String)) (srcCheck : Bool)
    (cache : Store) (tg : TokenGen) (f : PyFunc) (args : List PyVal)
    (kw : List (String × PyVal)) (fd : Bool) (ign : List String)
    (fname : String) (insOpt : Option String)
    (hns : functionNamespace getId f (some args) = .ok (fname, insOpt)) :
    ∃ st' tg',
      memoizeMakeCacheKey hashDigest b64 serArgs serKw getId makeName srcCheck
          cache tg f args kw fd ign
        = .ok (
          (b64 (hashDigest
            ((match makeName with
              | some g => g fname
              | Option.none => fname)
              ++ serArgs (memoizeKwargsToArgs getId f args kw ign).1
              ++ serKw (memoizeKwargsToArgs getId f args kw ign).2
              ++ (if srcCheck then f.source else "")))).take 16
          ++ (st' (memvname fname)).getD ""
          ++ (match (if "self" ∈ ign then Option.none else insOpt) with
              | some i => (st' (memvname i)).getD ""
              | Option.none => ""),
          st', tg') := by
  obtain ⟨st', tg', heq⟩ :=
    memoizeVersion_getOrCreate cache tg getId f (some args) fd ign fname
      insOpt hns
  refine ⟨st', tg', ?_⟩
  unfold memoizeMakeCacheKey
  rw [heq]
  cases srcCheck <;> simp [String.append_assoc]

/-- A plain one-parameter function for the C2 witness. -/
def funcPlain : PyFunc :=
  { module := "m", qualname := "g", selfObj := Option.none,
    params := [{ name := "a", default := Option.none }],
    source := "s" }

/-- Witness for C2 at a fully concrete instantiation. -/
theorem c2_witness :
    ∃ st' tg',
      memoizeMakeCacheKey (fun s => s) (fun s => s) (fun _ => "A")
          (fun _ => "K") gidConst Option.none false (fun _ => Option.none)
          ⟨fun _ => "T", 0⟩ funcPlain [PyVal.int 1] [] false []
        = .ok (
          ((fun (s : String) => s) ((fun (s : String) => s)
            ("m.g" ++ "A" ++ "K" ++ ""))).take 16
          ++ (st' (memvname "m.g")).getD "" ++ "",
          st', tg') :=
  c2_memoized_key_composition (fun s => s) (fun s => s) (fun _ => "A")
    (fun _ => "K") gidConst Option.none false (fun _ => Option.none)
    ⟨fun _ => "T", 0⟩ funcPlain [PyVal.int 1] [] false [] "m.g" Option.none
    rfl

/-!  ## Helper lemmas for the argument-splitting equivalence (C1)  -/

lemma lookupKV_eq_none {k : String} {l : List (String × PyVal)}
    (h : k ∉ l.map Prod.fst) : lookupKV k l = Option.none := by
  induction l with
  | nil => rfl
  | cons kv rest ih =>
    simp only [List.map_cons, List.mem_cons] at h
    push_neg at h
    cases kv with
    | mk k0 v =>
      simp only [lookupKV]
      rw [if_neg h.1]
      exact ih h.2

lemma lookupKV_mem_nodup {l : List (String × PyVal)}
    (hnd : (l.map Prod.fst).Nodup) {k : String} {v : PyVal}
    (hm : (k, v) ∈ l) : lookupKV k l = some v := by
  induction l with
  | nil => cases hm
  | cons kv rest ih =>
    cases kv with
    | mk k0 v0 =>
      simp only [List.map_cons, List.nodup_cons] at hnd
      rcases List.mem_cons.mp hm with heq | hrest
      · cases heq
        simp [lookupKV]
      · have hk : k ≠ k0 := by
          intro hkk
          subst hkk
          exact hnd.1 (List.mem_map.mpr ⟨(k, v), hrest, rfl⟩)
        simp only [lookupKV]
        rw [if_neg hk]
        exact ih hnd.2 hrest

lemma eraseFirst_eq_erase (k : String) (l : List String) :
    eraseFirst k l = l.erase k := by
  induction l with
  | nil => rfl
  | cons x xs ih =>
    simp only [eraseFirst, List.erase_cons, beq_iff_eq, ih]

lemma foldl_eraseFirst_perm :
    ∀ (names kr : List String), kr.Perm names →
      names.foldl (fun k s => eraseFirst s k) kr = [] := by
  intro names
  induction names with
  | nil =>
    intro kr h
    simpa using h.eq_nil
  | cons s rest ih =>
    intro kr h
    have hperm : (eraseFirst s kr).Perm rest := by
      rw [eraseFirst_eq_erase]
      have he := h.erase s
      simpa [List.erase_cons_head] using he
    simpa using ih (eraseFirst s kr) hperm

lemma zip_drop (l1 : List String) (l2 : List PyVal) :
    ∀ n, (l1.zip l2).drop n = (l1.drop n).zip (l2.drop n) := by
  induction l1 generalizing l2 with
  | nil => intro n; simp
  | cons a as ih =>
    intro n
    cases l2 with
    | nil => simp
    | cons b bs =>
      cases n with
      | zero => rfl
      | succ m => simpa using ih bs m

lemma forall2_mem_zip :
    ∀ (ps : List PyParam) (vs : List PyVal), ps.length = vs.length →
      List.Forall₂ (fun p v => (p.name, v) ∈ (ps.map PyParam.name).zip vs)
        ps vs := by
  intro ps
  induction ps with
  | nil =>
    intro vs hl
    cases vs with
    | nil => exact List.Forall₂.nil
    | cons b bs => cases hl
  | cons p ps' ih =>
    intro vs hl
    cases vs with
    | nil => cases hl
    | cons v vs' =>
      refine List.Forall₂.cons (by simp) ?_
      have htail := ih vs' (by simpa using hl)
      exact htail.imp (fun a b hab => List.mem_cons_of_mem _ hab)

lemma get_append_length (pre : List PyVal) (v : PyVal) (rest : List PyVal)
    (h : pre.length < (pre ++ v :: rest).length) :
    (pre ++ v :: rest).get ⟨pre.length, h⟩ = v := by
  induction pre with
  | nil => rfl
  | cons x xs ih =>
    exact ih (by rw [List.length_append, List.length_cons]; omega)

/-- Keyword regime of the normalization loop: every remaining declared
parameter is consumed from the keyword arguments, in declaration order, and
its key is struck from `kw_keys_remaining`. -/
lemma kwargsToArgsAux_keyword (getId : PyVal → String) (args : List PyVal)
    (kwargs : List (String × PyVal)) :
    ∀ {ps : List PyParam} {vs : List PyVal},
      List.Forall₂ (fun (p : PyParam) v => lookupKV p.name kwargs = some v)
        ps vs →
      ∀ (b : Bool) (argNum : Nat) (kwRem : List String),
      (b = true → ∀ p ∈ ps.head?, p.name ≠ "self" ∧ p.name ≠ "cls") →
      kwargsToArgsAux getId b ps args kwargs [] argNum kwRem =
        (vs, ps.foldl (fun kr p => eraseFirst p.name kr) kwRem) := by
  intro ps vs hfa
  induction hfa with
  | nil =>
    intro b argNum kwRem _
    rfl
  | @cons p v ps' vs' hpv hrest ih =>
    intro b argNum kwRem hhead
    have hsc : (b && (p.name == "self" || p.name == "cls")) = false := by
      cases b with
      | false => rfl
      | true =>
        have h := hhead rfl p (by simp)
        simp [h.1, h.2]
    simp only [kwargsToArgsAux, List.foldl_cons]
    rw [if_neg (List.not_mem_nil p.name), hsc]
    simp only [Bool.false_eq_true, if_false, hpv]
    rw [ih false argNum (eraseFirst p.name kwRem) (by intro h; cases h)]

/-- Positional regime of the normalization loop: with `arg_num` pointing at
the start of `vsA` inside the positional tuple and none of the `psA` names
supplied by keyword, the next `psA.length` parameters consume `vsA` in
order. -/
lemma kwargsToArgsAux_positional (getId : PyVal → String)
    (kwargs : List (String × PyVal)) (psB : List PyParam) :
    ∀ (psA : List PyParam) (b : Bool) (pre vsA : List PyVal)
      (kwRem : List String),
    psA.length = vsA.length →
    (∀ p ∈ psA, p.name ∉ kwargs.map Prod.fst) →
    (b = true → psA ≠ []) →
    (b = true → ∀ p ∈ psA.head?, p.name ≠ "self" ∧ p.name ≠ "cls") →
    kwargsToArgsAux getId b (psA ++ psB) (pre ++ vsA) kwargs [] pre.length
        kwRem =
      (vsA ++ (kwargsToArgsAux getId false psB (pre ++ vsA) kwargs []
        (pre.length + psA.length) kwRem).1,
       (kwargsToArgsAux getId false psB (pre ++ vsA) kwargs []
        (pre.length + psA.length) kwRem).2) := by
  intro psA
  induction psA with
  | nil =>
    intro b pre vsA kwRem hlen hkw hb _
    have hb' : b = false := by
      cases b with
      | false => rfl
      | true => exact absurd rfl (hb rfl)
    have hv : vsA = [] := by
      cases vsA with
      | nil => rfl
      | cons v vs' => cases hlen
    subst hb'
    subst hv
    simp
  | cons p psA' ih =>
    intro b pre vsA kwRem hlen hkw hb hhead
    cases vsA with
    | nil => cases hlen
    | cons v vsA' =>
      have hsc : (b && (p.name == "self" || p.name == "cls")) = false := by
        cases b with
        | false => rfl
        | true =>
          have h := hhead rfl p (by simp)
          simp [h.1, h.2]
      have hlk : lookupKV p.name kwargs = Option.none :=
        lookupKV_eq_none (hkw p (List.mem_cons_self p psA'))
      have hlt : pre.length < (pre ++ v :: vsA').length := by
        rw [List.length_append, List.length_cons]
        omega
      simp only [List.cons_append, kwargsToArgsAux]
      rw [if_neg (List.not_mem_nil p.name), hsc]
      simp only [Bool.false_eq_true, if_false, hlk]
      rw [dif_pos hlt]
      rw [get_append_length pre v vsA' hlt]
      have hre : pre ++ v :: vsA' = (pre ++ [v]) ++ vsA' := by
        rw [List.append_assoc]
        rfl
      have hre2 : pre.length + 1 = (pre ++ [v]).length := by
        rw [List.length_append]
        rfl
      rw [hre, hre2]
      simp only [List.append_eq]
      rw [ih false (pre ++ [v]) vsA' kwRem (by simpa using hlen)
        (fun q hq => hkw q (List.mem_cons_of_mem p hq))
        (by intro h; cases h) (by intro h; cases h)]
      have hre3 : (pre ++ [v]).length + psA'.length
          = pre.length + (psA'.length + 1) := by
        rw [List.length_append]
        simp
        omega
      rw [hre3]
      simp

/-- Combined keyword phase: the parameters from position `n` on are all
consumed from the keyword arguments (a permutation of the canonical tail of
the declaration/value zip), leaving the remaining-keys list empty. -/
lemma keyword_phase (getId : PyVal → String) (f : PyFunc) (vs : List PyVal)
    (n : Nat) (args : List PyVal) (kw : List (String × PyVal)) (b : Bool)
    (argNum : Nat)
    (hlen : f.params.length = vs.length)
    (hnd : f.argNames.Nodup)
    (hkw : kw.Perm ((f.argNames.zip vs).drop n))
    (hb : b = true → ∀ p ∈ (f.params.drop n).head?,
      p.name ≠ "self" ∧ p.name ≠ "cls") :
    kwargsToArgsAux getId b (f.params.drop n) args kw [] argNum
        (kw.map Prod.fst) = (vs.drop n, []) := by
  have hlenan : f.argNames.length = vs.length := by
    simp [PyFunc.argNames, hlen]
  have hzipmap : ((f.argNames.zip vs).drop n).map Prod.fst
      = f.argNames.drop n := by
    rw [zip_drop]
    exact List.map_fst_zip _ _ (by simp [hlenan])
  have hkeys : (kw.map Prod.fst).Perm (f.argNames.drop n) := by
    have hp := hkw.map Prod.fst
    rwa [hzipmap] at hp
  have hdnodup : (f.argNames.drop n).Nodup := by
    have h2 := hnd
    rw [← List.take_append_drop n f.argNames] at h2
    exact (List.nodup_append.mp h2).2.1
  have hknodup : (kw.map Prod.fst).Nodup := hkeys.nodup_iff.mpr hdnodup
  have hmapdrop : f.argNames.drop n = (f.params.drop n).map PyParam.name := by
    simp [PyFunc.argNames, List.map_drop]
  have hcanzip : (f.argNames.zip vs).drop n
      = ((f.params.drop n).map PyParam.name).zip (vs.drop n) := by
    rw [zip_drop, hmapdrop]
  have hfa : List.Forall₂
      (fun (p : PyParam) v => lookupKV p.name kw = some v)
      (f.params.drop n) (vs.drop n) := by
    have hbase := forall2_mem_zip (f.params.drop n) (vs.drop n)
      (by simp [hlen])
    refine hbase.imp (fun x y hxy => ?_)
    apply lookupKV_mem_nodup hknodup
    apply hkw.mem_iff.mpr
    rw [hcanzip]
    exact hxy
  rw [kwargsToArgsAux_keyword getId args kw hfa b argNum (kw.map Prod.fst) hb]
  refine congrArg _ ?_
  rw [show (f.params.drop n).foldl (fun kr p => eraseFirst p.name kr)
        (kw.map Prod.fst)
      = ((f.params.drop n).map PyParam.name).foldl
        (fun kr s => eraseFirst s kr) (kw.map Prod.fst) from
    (List.foldl_map PyParam.name (fun kr s => eraseFirst s kr) _ _).symm]
  exact foldl_eraseFirst_perm _ _ (hkeys.trans (by rw [hmapdrop]))

/-- Splitting a full assignment of the declared parameters at any cut point
`n` — the first `n` values positional, the rest keyword (in any order) —
normalizes to the full value tuple with no leftover kwargs. -/
lemma split_normalization (getId : PyVal → String) (f : PyFunc)
    (vs : List PyVal) (n : Nat) (kw : List (String × PyVal))
    (hlen : f.params.length = vs.length)
    (hnd : f.argNames.Nodup)
    (hn : n ≤ vs.length)
    (hhead : ∀ s ∈ f.argNames.head?, s ≠ "self" ∧ s ≠ "cls")
    (hkw : kw.Perm ((f.argNames.zip vs).drop n)) :
    memoizeKwargsToArgs getId f (vs.take n) kw [] = (vs, []) := by
  have hheadp : ∀ p ∈ f.params.head?, p.name ≠ "self" ∧ p.name ≠ "cls" := by
    intro p hp
    apply hhead p.name
    simp only [PyFunc.argNames, List.head?_map]
    cases hh : f.params.head? with
    | none => rw [hh] at hp; cases hp
    | some q =>
      rw [hh] at hp
      have hqp : q = p := Option.some.inj (Option.mem_def.mp hp)
      subst hqp
      exact rfl
  have haux : kwargsToArgsAux getId true f.params (vs.take n) kw [] 0
      (kw.map Prod.fst) = (vs, []) := by
    rcases Nat.eq_zero_or_pos n with hn0 | hnpos
    · subst hn0
      have hk := keyword_phase getId f vs 0 [] kw true 0 hlen hnd
        (by simpa using hkw)
        (by intro _; simpa using hheadp)
      simp only [List.drop_zero] at hk
      simpa using hk
    · have hsplitp : f.params = f.params.take n ++ f.params.drop n :=
        (List.take_append_drop n f.params).symm
      have hsplita : vs.take n = ([] : List PyVal) ++ vs.take n := rfl
      have hlentake : (f.params.take n).length = (vs.take n).length := by
        rw [List.length_take, List.length_take, hlen]
      have htkeys : ∀ p ∈ f.params.take n, p.name ∉ kw.map Prod.fst := by
        intro p hp hmem
        have hkeys : (kw.map Prod.fst).Perm (f.argNames.drop n) := by
          have hp2 := hkw.map Prod.fst
          rw [zip_drop] at hp2
          rwa [List.map_fst_zip _ _ (by simp [PyFunc.argNames, hlen])] at hp2
        have hmemdrop : p.name ∈ f.argNames.drop n :=
          hkeys.mem_iff.mp hmem
        have hmemtake : p.name ∈ f.argNames.take n := by
          have hmm : p.name ∈ (f.params.take n).map PyParam.name :=
            List.mem_map.mpr ⟨p, hp, rfl⟩
          rw [show f.argNames.take n = (f.params.take n).map PyParam.name
            from by simp [PyFunc.argNames, List.map_take]]
          exact hmm
        have h2 := hnd
        rw [← List.take_append_drop n f.argNames] at h2
        exact (List.nodup_append.mp h2).2.2 hmemtake hmemdrop
      have hne : f.params.take n ≠ [] := by
        intro hcon
        have hcl := congrArg List.length hcon
        rw [List.length_take] at hcl
        simp at hcl
        rcases hcl with h0 | h0
        · omega
        · rw [h0] at hlen
          simp at hlen
          omega
      have hheadtake : ∀ p ∈ (f.params.take n).head?,
          p.name ≠ "self" ∧ p.name ≠ "cls" := by
        intro p hp
        apply hheadp
        cases hps : f.params with
        | nil => simp [hps] at hp
        | cons q rest =>
          cases n with
          | zero => omega
          | succ m =>
            rw [hps] at hp
            simp only [List.take_succ_cons, List.head?_cons] at hp ⊢
            exact hp
      have hpos := kwargsToArgsAux_positional getId kw (f.params.drop n)
        (f.params.take n) true [] (vs.take n) (kw.map Prod.fst)
        hlentake htkeys (fun _ => hne) (fun _ => hheadtake)
      rw [hsplitp]
      simp only [List.nil_append, List.length_nil] at hpos
      rw [hpos]
      rw [keyword_phase getId f vs n (vs.take n) kw false
        (0 + (f.params.take n).length) hlen hnd hkw (by intro h; cases h)]
      rw [List.take_append_drop]
  have hdropnil : (vs.take n).drop f.params.length = [] := by
    apply List.drop_eq_nil_of_le
    rw [List.length_take]
    omega
  simp only [memoizeKwargsToArgs, haux, hdropnil, List.append_nil]
  simp [sortKV]

/-- When the first declared parameter is neither `self` nor `cls`, the
namespace derivation never consults the call's arguments. -/
lemma functionNamespace_args_indep (getId : PyVal → String) (f : PyFunc)
    (a1 a2 : Option (List PyVal))
    (hhead : ∀ s ∈ f.argNames.head?, s ≠ "self" ∧ s ≠ "cls") :
    functionNamespace getId f a1 = functionNamespace getId f a2 := by
  have hself : ¬ f.argNames.head? = some "self" := by
    intro h
    exact (hhead "self" (Option.mem_def.mpr h)).1 rfl
  have hcls : ¬ f.argNames.head? = some "cls" := by
    intro h
    exact (hhead "cls" (Option.mem_def.mpr h)).2 rfl
  unfold functionNamespace
  simp only [hself, hcls, if_false]

/-- Consequently neither does the version registry (outside its namespace
derivation, `args` is unused). -/
lemma memoizeVersion_args_indep (cache : Store) (tg : TokenGen)
    (getId : PyVal → String) (f : PyFunc) (a1 a2 : Option (List PyVal))
    (reset delete fd : Bool) (ign : List String)
    (hhead : ∀ s ∈ f.argNames.head?, s ≠ "self" ∧ s ≠ "cls") :
    memoizeVersion cache tg getId f a1 reset delete fd ign =
      memoizeVersion cache tg getId f a2 reset delete fd ign := by
  unfold memoizeVersion
  rw [functionNamespace_args_indep getId f a1 a2 hhead]

/-- C1: for a callable whose declared positional-or-keyword parameters are
distinct and do not start with `self`/`cls`, any two ways of splitting one
fixed assignment of values to the declared parameters between positional
form (a prefix, in declaration order) and keyword form (the remaining
parameters, in any order) normalize to the identical canonical
`(positional tuple, sorted leftover kwargs)` pair — namely the full value
tuple with no leftovers — and hence derive the identical memoized cache
key. -/
theorem c1_argument_split_equivalence
    (hashDigest b64 : String → String) (serArgs : List PyVal → String)
    (serKw : List (String × PyVal) → String) (getId : PyVal → String)
    (makeName : Option (String → String)) (srcCheck : Bool) (cache : Store)
    (tg : TokenGen) (fd : Bool) (f : PyFunc) (vs : List PyVal)
    (n1 n2 : Nat) (kw1 kw2 : List (String × PyVal))
    (hlen : f.params.length = vs.length)
    (hnd : f.argNames.Nodup)
    (hhead : ∀ s ∈ f.argNames.head?, s ≠ "self" ∧ s ≠ "cls")
    (hn1 : n1 ≤ vs.length) (hn2 : n2 ≤ vs.length)
    (hkw1 : kw1.Perm ((f.argNames.zip vs).drop n1))
    (hkw2 : kw2.Perm ((f.argNames.zip vs).drop n2)) :
    memoizeKwargsToArgs getId f (vs.take n1) kw1 [] =
      memoizeKwargsToArgs getId f (vs.take n2) kw2 [] ∧
    memoizeMakeCacheKey hashDigest b64 serArgs serKw getId makeName srcCheck
        cache tg f (vs.take n1) kw1 fd []
      = memoizeMakeCacheKey hashDigest b64 serArgs serKw getId makeName
        srcCheck cache tg f (vs.take n2) kw2 fd [] := by
  have h1 := split_normalization getId f vs n1 kw1 hlen hnd hn1 hhead hkw1
  have h2 := split_normalization getId f vs n2 kw2 hlen hnd hn2 hhead hkw2
  refine ⟨h1.trans h2.symm, ?_⟩
  unfold memoizeMakeCacheKey
  rw [memoizeVersion_args_indep cache tg getId f (some (vs.take n1))
    (some (vs.take n2)) false false fd [] hhead]
  rw [h1, h2]

/-- Function `def g(a, b)` for the C1 witness. -/
def funcAB : PyFunc :=
  { module := "m", qualname := "g", selfObj := Option.none,
    params := [{ name := "a", default := Option.none },
               { name := "b", default := Option.none }],
    source := "s" }

/-- Witness for C1: `g(1, 2)` and `g(1, b=2)` normalize and key
identically. -/
theorem c1_witness :
    memoizeKwargsToArgs gidConst funcAB
        [PyVal.int 1, PyVal.int 2] [] [] =
      memoizeKwargsToArgs gidConst funcAB
        [PyVal.int 1] [("b", PyVal.int 2)] [] ∧
    memoizeMakeCacheKey (fun s => s) (fun s => s) (fun _ => "A")
        (fun _ => "K") gidConst Option.none false (fun _ => Option.none)
        ⟨fun _ => "T", 0⟩ funcAB [PyVal.int 1, PyVal.int 2] [] false []
      = memoizeMakeCacheKey (fun s => s) (fun s => s) (fun _ => "A")
        (fun _ => "K") gidConst Option.none false (fun _ => Option.none)
        ⟨fun _ => "T", 0⟩ funcAB [PyVal.int 1] [("b", PyVal.int 2)] false
        [] := by
  have h := c1_argument_split_equivalence (fun s => s) (fun s => s)
    (fun _ => "A") (fun _ => "K") gidConst Option.none false
    (fun _ => Option.none) ⟨fun _ => "T", 0⟩ false funcAB
    [PyVal.int 1, PyVal.int 2] 2 1 [] [("b", PyVal.int 2)]
    rfl (by decide)
    (by intro s hs; exact ⟨by cases hs; decide, by cases hs; decide⟩)
    (by decide) (by decide) (by decide) (by decide)
  exact h

/-!  ## The amended default rule (C4), in full generality  -/

/-- Defaults regime of the normalization loop: with the positional arguments
exhausted, no keyword arguments and no ignore list, every remaining declared
parameter is substituted by its declared default when that default is truthy
and by the nil placeholder otherwise. -/
lemma kwargsToArgsAux_defaults (getId : PyVal → String) (args : List PyVal) :
    ∀ (ps : List PyParam) (b : Bool) (argNum : Nat) (kwRem : List String),
    args.length ≤ argNum →
    (b = true → ∀ p ∈ ps.head?, p.name ≠ "self" ∧ p.name ≠ "cls") →
    kwargsToArgsAux getId b ps args [] [] argNum kwRem
      = (ps.map (fun p => if (argDefaultVal p).truthy then argDefaultVal p
          else PyVal.none), kwRem) := by
  intro ps
  induction ps with
  | nil =>
    intro b argNum kwRem _ _
    rfl
  | cons p rest ih =>
    intro b argNum kwRem hle hhead
    have hsc : (b && (p.name == "self" || p.name == "cls")) = false := by
      cases b with
      | false => rfl
      | true =>
        have h := hhead rfl p (by simp)
        simp [h.1, h.2]
    have hnlt : ¬ argNum < args.length := by omega
    simp only [kwargsToArgsAux, List.map_cons]
    rw [if_neg (List.not_mem_nil p.name), hsc]
    simp only [Bool.false_eq_true, if_false, lookupKV]
    rw [dif_neg hnlt]
    rw [ih false (argNum + 1) kwRem (by omega) (by intro h; cases h)]
    cases hdt : (argDefaultVal p).truthy <;> simp [hdt]

/-- C4 (amended): a declared parameter that is not in the ignore-list, is not
`self`/`cls` at position 0, does not appear in the keyword arguments, and has
no remaining positional argument to consume receives its declared default
exactly when that default is truthy, and the nil placeholder otherwise.
First conjunct: the rule at any parameter of any call, i.e. at an arbitrary
state of the normalization loop (arbitrary remaining parameters, arguments,
keyword arguments, ignore list, `arg_num` and remaining-keys list).  Second
conjunct: end-to-end through `_memoize_kwargs_to_args` — a call supplying
only a positional prefix normalizes to that prefix followed by
truthy-default-or-nil for every remaining declared parameter. -/
theorem c4_truthy_default :
    (∀ (getId : PyVal → String) (b : Bool) (p : PyParam)
       (rest : List PyParam) (args : List PyVal)
       (kwargs : List (String × PyVal)) (ignore kwRem : List String)
       (argNum : Nat),
      p.name ∉ ignore →
      (b = true → p.name ≠ "self" ∧ p.name ≠ "cls") →
      lookupKV p.name kwargs = Option.none →
      args.length ≤ argNum →
      kwargsToArgsAux getId b (p :: rest) args kwargs ignore argNum kwRem
        = ((if (argDefaultVal p).truthy then argDefaultVal p
            else PyVal.none)
            :: (kwargsToArgsAux getId false rest args kwargs ignore
              (argNum + 1) kwRem).1,
           (kwargsToArgsAux getId false rest args kwargs ignore
             (argNum + 1) kwRem).2)) ∧
    (∀ (getId : PyVal → String) (f : PyFunc) (args : List PyVal),
      args.length ≤ f.params.length →
      (∀ s ∈ f.argNames.head?, s ≠ "self" ∧ s ≠ "cls") →
      memoizeKwargsToArgs getId f args [] []
        = (args ++ (f.params.drop args.length).map
            (fun p => if (argDefaultVal p).truthy then argDefaultVal p
              else PyVal.none), [])) := by
  constructor
  · intro getId b p rest args kwargs ignore kwRem argNum hig hsc0 hlk hle
    have hsc : (b && (p.name == "self" || p.name == "cls")) = false := by
      cases b with
      | false => rfl
      | true =>
        have h := hsc0 rfl
        simp [h.1, h.2]
    have hnlt : ¬ argNum < args.length := by omega
    simp only [kwargsToArgsAux]
    rw [if_neg hig, hsc]
    simp only [Bool.false_eq_true, if_false, hlk]
    rw [dif_neg hnlt]
    cases hdt : (argDefaultVal p).truthy <;> simp [hdt]
  · intro getId f args hlen hhead
    have hheadp : ∀ p ∈ f.params.head?,
        p.name ≠ "self" ∧ p.name ≠ "cls" := by
      intro p hp
      apply hhead p.name
      simp only [PyFunc.argNames, List.head?_map]
      cases hh : f.params.head? with
      | none => rw [hh] at hp; cases hp
      | some q =>
        rw [hh] at hp
        have hqp : q = p := Option.some.inj (Option.mem_def.mp hp)
        subst hqp
        exact rfl
    have haux : kwargsToArgsAux getId true f.params args [] [] 0 []
        = (args ++ (f.params.drop args.length).map
            (fun p => if (argDefaultVal p).truthy then argDefaultVal p
              else PyVal.none), []) := by
      rcases Nat.eq_zero_or_pos args.length with hn0 | hnpos
      · have hargs0 : args = [] := List.length_eq_zero.mp hn0
        subst hargs0
        have hk := kwargsToArgsAux_defaults getId [] f.params true 0 []
          (by simp) (fun _ => hheadp)
        simpa using hk
      · have hlentake : (f.params.take args.length).length = args.length := by
          rw [List.length_take]
          omega
        have hne : f.params.take args.length ≠ [] := by
          intro hcon
          have hcl := congrArg List.length hcon
          rw [hlentake, List.length_nil] at hcl
          omega
        have hheadtake : ∀ p ∈ (f.params.take args.length).head?,
            p.name ≠ "self" ∧ p.name ≠ "cls" := by
          intro p hp
          apply hheadp
          cases hps : f.params with
          | nil => simp [hps] at hp
          | cons q rest =>
            cases hnn : args.length with
            | zero => omega
            | succ m =>
              rw [hps, hnn] at hp
              simp only [List.take_succ_cons, List.head?_cons] at hp ⊢
              exact hp
        have hpos := kwargsToArgsAux_positional getId []
          (f.params.drop args.length) (f.params.take args.length) true
          [] args []
          (by rw [hlentake]) (by intro p _ hmem; simp at hmem)
          (fun _ => hne) (fun _ => hheadtake)
        rw [show f.params = f.params.take args.length
            ++ f.params.drop args.length
          from (List.take_append_drop args.length f.params).symm]
        simp only [List.nil_append, List.length_nil] at hpos
        rw [hpos]
        rw [kwargsToArgsAux_defaults getId args
          (f.params.drop args.length) false
          (0 + (f.params.take args.length).length) []
          (by rw [hlentake]; omega) (by intro h; cases h)]
        simp [List.take_append_drop]
    have hdropnil : args.drop f.params.length = [] :=
      List.drop_eq_nil_of_le hlen
    simp only [memoizeKwargsToArgs, List.map_nil, haux, hdropnil,
      List.append_nil]
    simp [sortKV]

/-- Witness for the amended C4: the end-to-end conjunct at the
counterexample's own two-parameter shape `g(a, b=0)` called `g(1)` (falsy
default replaced by the placeholder) and at the one-parameter `h(b=7)`
called `h()` (truthy default used); the step conjunct at parameter `b=0`
of an arbitrary mid-loop state with the positionals exhausted. -/
theorem c4_witness :
    memoizeKwargsToArgs gidConst funcFalsyDefault [PyVal.int 1] [] []
      = ([PyVal.int 1, PyVal.none], []) ∧
    memoizeKwargsToArgs gidConst funcTruthyDefault [] [] []
      = ([PyVal.int 7], []) ∧
    kwargsToArgsAux gidConst false
        [{ name := "b", default := some (PyVal.int 0) }]
        [PyVal.int 1] [] [] 1 ["x"]
      = ([PyVal.none], ["x"]) := by
  refine ⟨?_, ?_, ?_⟩
  · have h := c4_truthy_default.2 gidConst funcFalsyDefault [PyVal.int 1]
      (by decide)
      (by intro s hs; exact ⟨by cases hs; decide, by cases hs; decide⟩)
    simpa using h
  · have h := c4_truthy_default.2 gidConst funcTruthyDefault []
      (by decide)
      (by intro s hs; exact ⟨by cases hs; decide, by cases hs; decide⟩)
    simpa using h
  · have h := c4_truthy_default.1 gidConst false
      { name := "b", default := some (PyVal.int 0) } [] [PyVal.int 1] []
      [] ["x"] 1 (by decide) (by intro h; cases h) rfl (by decide)
    simpa using h

end FlaskCaching
